import Mathlib

set_option maxRecDepth 8192

/-!
Verification development for the streaming analysis bridge:
the gateway endpoint (`src/app/api/analyze/route.ts`, local-spawn and
remote-proxy realizations) and the client stream reducer
(`src/hooks/useAnalysis.ts`).  Strings are modelled as `List Char`;
JavaScript's `String.prototype.split`, `trim`, `JSON.parse` and
`JSON.stringify` are embedded as executable Lean functions.
-/

namespace AiSeo

/-- Boolean prefix test on character lists, mirroring `String.prototype.startsWith`
and the prefix comparisons used when splitting on a multi-character separator. -/
def isPre : List Char → List Char → Bool
  | [], _ => true
  | _ :: _, [] => false
  | a :: as, b :: bs => if a = b then isPre as bs else false

/-- The whitespace class trimmed by `String.prototype.trim` (ASCII part). -/
def isSpaceJs (c : Char) : Bool :=
  (c == ' ') || (c == '\t') || (c == '\n') || (c == '\r') ||
  (c == '\x0b') || (c == '\x0c')

/-- JavaScript `String.prototype.trim`. -/
def trimCL (s : List Char) : List Char :=
  ((s.dropWhile isSpaceJs).reverse.dropWhile isSpaceJs).reverse

/-- Last element of a list of strings, defaulting to the empty string;
models `lines.pop()` / `parts.pop()` on the split result. -/
def lastD : List (List Char) → List Char
  | [] => []
  | [x] => x
  | _ :: y :: ys => lastD (y :: ys)

/-- Fuel-indexed greedy leftmost split on the non-empty separator `d :: ds`,
mirroring JavaScript `buffer.split(sep)`: scan left to right, at each position
consume the separator if it matches, otherwise extend the current segment.
The fuel only serves to make the recursion structural; `splitStr` supplies
enough fuel for it never to run out. -/
def splitF (d : Char) (ds : List Char) : Nat → List Char → List (List Char)
  | _, [] => [[]]
  | 0, s => [s]
  | fuel + 1, c :: cs =>
    if isPre (d :: ds) (c :: cs) then
      [] :: splitF d ds fuel (cs.drop ds.length)
    else
      (c :: (splitF d ds fuel cs).headD []) :: (splitF d ds fuel cs).tail

/-- JavaScript `s.split(sep)` for the non-empty separator `d :: ds`. -/
def splitStr (d : Char) (ds : List Char) (s : List Char) : List (List Char) :=
  splitF d ds s.length s

/- ## JSON model (JavaScript `JSON.parse` / `JSON.stringify`) -/

/-- Parsed JSON values.  Numbers keep their source text: the bridge never
computes with payload numbers, it only stores and forwards them. -/
inductive JValue : Type
  | jnull : JValue
  | jbool : Bool → JValue
  | jnum : List Char → JValue
  | jstr : List Char → JValue
  | jarr : List JValue → JValue
  | jobj : List (List Char × JValue) → JValue

/-- JSON insignificant whitespace skipping. -/
def skipWs : List Char → List Char
  | [] => []
  | c :: cs => if c = ' ' ∨ c = '\t' ∨ c = '\n' ∨ c = '\r' then skipWs cs else c :: cs

/-- Hexadecimal digit value. -/
def hexVal (c : Char) : Option Nat :=
  if '0' ≤ c ∧ c ≤ '9' then some (c.toNat - '0'.toNat)
  else if 'a' ≤ c ∧ c ≤ 'f' then some (c.toNat - 'a'.toNat + 10)
  else if 'A' ≤ c ∧ c ≤ 'F' then some (c.toNat - 'A'.toNat + 10)
  else none

/-- Single-character string escapes of JSON. -/
def escChar (c : Char) : Option Char :=
  if c = '"' then some '"'
  else if c = '\\' then some '\\'
  else if c = '/' then some '/'
  else if c = 'b' then some (Char.ofNat 8)
  else if c = 'f' then some (Char.ofNat 12)
  else if c = 'n' then some '\n'
  else if c = 'r' then some '\r'
  else if c = 't' then some '\t'
  else none

/-- JSON string body scanner (input starts after the opening quote); returns
the decoded characters and the input after the closing quote.  Raw control
characters are rejected, as by `JSON.parse`. -/
def pstr : Nat → List Char → Option (List Char × List Char)
  | 0, _ => none
  | _ + 1, [] => none
  | fuel + 1, c :: rest =>
    if c = '"' then some ([], rest)
    else if c = '\\' then
      match rest with
      | 'u' :: h1 :: h2 :: h3 :: h4 :: r2 =>
        match hexVal h1, hexVal h2, hexVal h3, hexVal h4 with
        | some a, some b, some e, some f =>
          (pstr fuel r2).map fun p => (Char.ofNat (((a * 16 + b) * 16 + e) * 16 + f) :: p.1, p.2)
        | _, _, _, _ => none
      | e :: r2 =>
        match escChar e with
        | some ch => (pstr fuel r2).map fun p => (ch :: p.1, p.2)
        | none => none
      | [] => none
    else if c.toNat < 32 then none
    else (pstr fuel rest).map fun p => (c :: p.1, p.2)

/-- Fractional part of a JSON number (appended to the digits parsed so far). -/
def parseFrac (acc : List Char) (s : List Char) : Option (List Char × List Char) :=
  match s with
  | '.' :: rest =>
    let ds := rest.takeWhile Char.isDigit
    if ds = [] then none else some (acc ++ '.' :: ds, rest.dropWhile Char.isDigit)
  | _ => some (acc, s)

/-- Exponent part of a JSON number. -/
def parseExp (acc : List Char) (s : List Char) : Option (List Char × List Char) :=
  match s with
  | c :: rest =>
    if c = 'e' ∨ c = 'E' then
      let sg : List Char × List Char :=
        match rest with
        | '+' :: r => (['+'], r)
        | '-' :: r => (['-'], r)
        | _ => ([], rest)
      let ds := sg.2.takeWhile Char.isDigit
      if ds = [] then none else some (acc ++ c :: sg.1 ++ ds, sg.2.dropWhile Char.isDigit)
    else some (acc, s)
  | [] => some (acc, s)

/-- JSON number grammar: `-?(0|[1-9][0-9]*)(.[0-9]+)?([eE][+-]?[0-9]+)?`;
returns the consumed source text. -/
def parseNum (s : List Char) : Option (List Char × List Char) :=
  let sg : List Char × List Char :=
    match s with
    | '-' :: rest => (['-'], rest)
    | _ => ([], s)
  match sg.2 with
  | '0' :: rest =>
    match parseFrac (sg.1 ++ ['0']) rest with
    | some (a2, r2) => parseExp a2 r2
    | none => none
  | c :: rest =>
    if c.isDigit then
      let ds := rest.takeWhile Char.isDigit
      match parseFrac (sg.1 ++ c :: ds) (rest.dropWhile Char.isDigit) with
      | some (a2, r2) => parseExp a2 r2
      | none => none
    else none
  | [] => none

/-- Parser modes: a value, the members of an object (after `{`, first key
next), or the elements of an array (after `[`, first value next). -/
inductive PMode : Type
  | value : PMode
  | members : PMode
  | elems : PMode

/-- Recursive-descent JSON parser, fuel-structural so that it evaluates by
kernel reduction.  `parseJson` supplies enough fuel for any input. -/
def pv : Nat → PMode → List Char → Option (JValue × List Char)
  | 0, _, _ => none
  | fuel + 1, PMode.value, input =>
    match skipWs input with
    | 'n' :: 'u' :: 'l' :: 'l' :: rest => some (.jnull, rest)
    | 't' :: 'r' :: 'u' :: 'e' :: rest => some (.jbool true, rest)
    | 'f' :: 'a' :: 'l' :: 's' :: 'e' :: rest => some (.jbool false, rest)
    | '"' :: rest =>
      match pstr (rest.length + 1) rest with
      | some (s, r) => some (.jstr s, r)
      | none => none
    | '{' :: rest =>
      (match skipWs rest with
       | '}' :: r2 => some (.jobj [], r2)
       | r1 => pv fuel PMode.members r1)
    | '[' :: rest =>
      (match skipWs rest with
       | ']' :: r2 => some (.jarr [], r2)
       | r1 => pv fuel PMode.elems r1)
    | s =>
      match parseNum s with
      | some (raw, r) => some (.jnum raw, r)
      | none => none
  | fuel + 1, PMode.members, input =>
    match skipWs input with
    | '"' :: rest =>
      (match pstr (rest.length + 1) rest with
       | some (k, r2) =>
         (match skipWs r2 with
          | ':' :: r3 =>
            (match pv fuel PMode.value r3 with
             | some (v, r4) =>
               (match skipWs r4 with
                | ',' :: r5 =>
                  (match pv fuel PMode.members r5 with
                   | some (.jobj fs, r6) => some (.jobj ((k, v) :: fs), r6)
                   | _ => none)
                | '}' :: r5 => some (.jobj [(k, v)], r5)
                | _ => none)
             | none => none)
          | _ => none)
       | none => none)
    | _ => none
  | fuel + 1, PMode.elems, input =>
    match pv fuel PMode.value input with
    | some (v, r1) =>
      (match skipWs r1 with
       | ',' :: r2 =>
         (match pv fuel PMode.elems r2 with
          | some (.jarr vs, r3) => some (.jarr (v :: vs), r3)
          | _ => none)
       | ']' :: r2 => some (.jarr [v], r2)
       | _ => none)
    | none => none

/-- JavaScript `JSON.parse`: parse one value and require only whitespace after. -/
def parseJson (s : List Char) : Option JValue :=
  match pv (s.length + 1) PMode.value s with
  | some (v, rest) => if skipWs rest = [] then some v else none
  | none => none

/-- Whether the text parses as JSON — the `try { JSON.parse(...) } catch` test. -/
def jsonParses (s : List Char) : Bool := (parseJson s).isSome

/-- Property lookup on object fields, later duplicate keys winning, as in a
JavaScript object literal. -/
def lookupLast (fs : List (List Char × JValue)) (k : List Char) : Option JValue :=
  match fs with
  | [] => none
  | (k1, v1) :: rest =>
    match lookupLast rest k with
    | some r => some r
    | none => if k1 = k then some v1 else none

/-- JavaScript property access `v[k]`: `undefined` (`none`) on non-objects. -/
def jget : JValue → List Char → Option JValue
  | .jobj fs, k => lookupLast fs k
  | _, _ => none

/-- Read a field as a string, as the reducer's TypeScript annotations do;
non-string values count as absent. -/
def asStr : Option JValue → Option (List Char)
  | some (.jstr s) => some s
  | _ => none

/-- Whether a JSON number literal denotes zero (any form `-0.00e5` etc.). -/
def numIsZero (raw : List Char) : Bool :=
  ((raw.takeWhile fun c => !((c == 'e') || (c == 'E'))).filter Char.isDigit).all (· == '0')

/-- JavaScript truthiness of a parsed JSON value. -/
def jsTruthy : JValue → Bool
  | .jnull => false
  | .jbool b => b
  | .jnum raw => !(numIsZero raw)
  | .jstr s => !(s.isEmpty)
  | .jarr _ => true
  | .jobj _ => true

/-- JavaScript falsiness of a possibly-absent value (the `!url` test). -/
def jsFalsyOpt : Option JValue → Bool
  | none => true
  | some v => !(jsTruthy v)

/- ## Gateway endpoint (local-spawn realization, `route.ts`) -/

/-- A transport frame `data: <payload>\n\n` as enqueued by the gateway. -/
def dataFrame (t : List Char) : List Char := "data: ".data ++ t ++ ['\n', '\n']

/-- The terminal sentinel frame `data: [DONE]\n\n`. -/
def sentinelFrame : List Char := "data: [DONE]\n\n".data

/-- Per-line handling in the `child.stdout` data handler: trim, skip empty,
validate as JSON, and forward the trimmed original text as a frame
(`route.ts` lines 39-48). -/
def processLine (line : List Char) : Option (List Char) :=
  if trimCL line = [] then none
  else if jsonParses (trimCL line) then some (dataFrame (trimCL line)) else none

/-- All frames forwarded for a list of completed lines, in order. -/
def processLines (lines : List (List Char)) : List (List Char) :=
  lines.filterMap processLine

/-- The `child.on("close")` handler: flush the trimmed leftover if non-empty
and JSON-parseable, then always write the sentinel (`route.ts` lines 55-69). -/
def closeFlush (buffer : List Char) : List (List Char) :=
  (if trimCL buffer = [] then []
   else if jsonParses (trimCL buffer) then [dataFrame (trimCL buffer)] else []) ++
  [sentinelFrame]

/-- Hexadecimal digit character (lowercase), for `JSON.stringify` escapes. -/
def hexDigit (n : Nat) : Char :=
  if n < 10 then Char.ofNat ('0'.toNat + n) else Char.ofNat ('a'.toNat + n - 10)

/-- `JSON.stringify` escaping of one string character. -/
def jsStrEscape (c : Char) : List Char :=
  if c = '"' then ['\\', '"']
  else if c = '\\' then ['\\', '\\']
  else if c = Char.ofNat 8 then ['\\', 'b']
  else if c = Char.ofNat 12 then ['\\', 'f']
  else if c = '\n' then ['\\', 'n']
  else if c = '\r' then ['\\', 'r']
  else if c = '\t' then ['\\', 't']
  else if c.toNat < 32 then "\\u00".data ++ [hexDigit (c.toNat / 16), hexDigit (c.toNat % 16)]
  else [c]

/-- `JSON.stringify` of a string. -/
def jsQuote (s : List Char) : List Char := '"' :: (s.map jsStrEscape).flatten ++ ['"']

/-- `JSON.stringify({ type: "error", message: msg })` as built by both the
spawn-failure handler and the remote-proxy catch branches. -/
def stringifyError (msg : List Char) : List Char :=
  "\x7b\"type\":\"error\",\"message\":".data ++ jsQuote msg ++ ['}']

/-- Outbound frames written by the `child.on("error")` handler of the
local-spawn gateway: one error frame, then the stream is closed — no
sentinel is written (`route.ts` lines 71-75). -/
def spawnFailureFrames (msg : List Char) : List (List Char) :=
  [dataFrame (stringifyError msg)]

/-- Response body written by the remote-proxy realization when the upstream
`fetch` throws: `data: <error json>\n\ndata: [DONE]\n\n`. -/
def remoteFetchFailBody : List Char :=
  dataFrame (stringifyError ("Analysis service unavailable".data)) ++ sentinelFrame

/-- What `POST` does with a parsed request body: synchronous 400 error, or a
stream is opened (worker spawned / upstream called). -/
inductive GatewayReply : Type
  | badRequest : Nat → List Char → GatewayReply
  | streamOpened : GatewayReply
  deriving DecidableEq

/-- The `if (!url)` validation short-circuit shared by every `POST` variant. -/
def handlePOST (body : JValue) : GatewayReply :=
  if jsFalsyOpt (jget body ("url".data)) then
    .badRequest 400 ("\x7b\"error\":\"url is required\"\x7d".data)
  else .streamOpened

/- ## Client stream reducer (`useAnalysis.ts`) -/

/-- The four reducer statuses. -/
inductive JobStatus : Type
  | idle : JobStatus
  | loading : JobStatus
  | complete : JobStatus
  | error : JobStatus
  deriving DecidableEq

/-- One appended progress entry. -/
structure ProgressStep : Type where
  stage : List Char
  detail : Option (List Char)
  label : List Char
  deriving DecidableEq

/-- The reducer's state (`AnalysisState` plus `currentStage`). -/
structure AnalysisState : Type where
  status : JobStatus
  progressSteps : List ProgressStep
  currentStage : List Char
  result : Option JValue
  error : Option (List Char)

/-- `INITIAL_STATE`. -/
def initialState : AnalysisState :=
  { status := .idle, progressSteps := [], currentStage := [], result := none, error := none }

/-- The fresh state installed by `analyze()` before streaming starts. -/
def loadingInit : AnalysisState :=
  { status := .loading, progressSteps := [], currentStage := "Starting analysis...".data,
    result := none, error := none }

/-- The `STAGE_LABELS` lookup table. -/
def stageLabels (s : List Char) : Option (List Char) :=
  if s = "domain".data then some ("Checking domain strategy".data)
  else if s = "robots".data then some ("Fetching robots.txt".data)
  else if s = "sitemap".data then some ("Fetching sitemap.xml".data)
  else if s = "agent_files".data then some ("Checking AI agent files (llms.txt)".data)
  else if s = "page".data then some ("Analyzing page".data)
  else if s = "internal_links".data then some ("Analyzing internal link structure".data)
  else if s = "complete".data then some ("Finalizing results".data)
  else none

/-- `detail.replace(/^https?:\/\//, "")`. -/
def stripScheme (s : List Char) : List Char :=
  if isPre ("https://".data) s then s.drop 8
  else if isPre ("http://".data) s then s.drop 7
  else s

/-- The `stageLabel` helper. -/
def stageLabel (stage : List Char) (detail : Option (List Char)) : List Char :=
  match detail with
  | some dd =>
    if stage = "page".data ∧ dd ≠ [] then "Analyzing: ".data ++ (stripScheme dd).take 55
    else (stageLabels stage).getD stage
  | none => (stageLabels stage).getD stage

/-- The progress step appended for a progress event (`const stage = event.stage ?? ""`,
`const detail = event.detail`, `const label = stageLabel(stage, detail)`). -/
def progStep (ev : JValue) : ProgressStep :=
  ⟨(asStr (jget ev ("stage".data))).getD [],
   asStr (jget ev ("detail".data)),
   stageLabel ((asStr (jget ev ("stage".data))).getD []) (asStr (jget ev ("detail".data)))⟩

/-- The `event.type === "progress"` branch (`useAnalysis.ts` lines 98-108):
append the step and update the current stage; `status` is untouched. -/
def progressUpdate (s : AnalysisState) (ev : JValue) : AnalysisState :=
  { s with currentStage := (progStep ev).label,
           progressSteps := s.progressSteps ++ [progStep ev] }

/-- The `event.type === "result" && event.data` branch (lines 109-115): with a
truthy payload, set `status` to complete and store the payload; the spread
keeps every other field (in particular `error`) unchanged. -/
def resultUpdate (s : AnalysisState) (ev : JValue) : AnalysisState :=
  match jget ev ("data".data) with
  | some d =>
    if jsTruthy d then
      { s with status := .complete, result := some d, currentStage := "Complete".data }
    else s
  | none => s

/-- The `event.type === "error"` branch (lines 116-121). -/
def errorUpdate (s : AnalysisState) (ev : JValue) : AnalysisState :=
  { s with status := .error,
           error := some ((asStr (jget ev ("message".data))).getD ("Unknown error".data)) }

/-- The type dispatch on a parsed event (`useAnalysis.ts` lines 98-122). -/
def applyEv (s : AnalysisState) (ev : JValue) : AnalysisState :=
  match asStr (jget ev ("type".data)) with
  | none => s
  | some t =>
    if t = "progress".data then progressUpdate s ev
    else if t = "result".data then resultUpdate s ev
    else if t = "error".data then errorUpdate s ev
    else s

/-- Application of one raw frame payload to the reducer state: `JSON.parse`
in a `try`/`catch` (parse failure skips the frame), then the
`progress` / `result` / `error` type dispatch (`useAnalysis.ts` lines 85-122).
Fields are read at the reducer's TypeScript types: non-string `stage` /
`detail` / `message` values are treated as absent. -/
def applyRaw (s : AnalysisState) (raw : List Char) : AnalysisState :=
  match parseJson raw with
  | none => s
  | some ev => applyEv s ev

/-- Whether the event's `data` field is present and truthy. -/
def evTruthyData (ev : JValue) : Bool :=
  match jget ev ("data".data) with
  | some d => jsTruthy d
  | none => false

/-- Whether a parsed event is an effective Result event (would set `Complete`). -/
def evResultB (ev : JValue) : Bool :=
  match asStr (jget ev ("type".data)) with
  | none => false
  | some t => decide (t = "result".data) && evTruthyData ev

/-- Whether a parsed event is an Error event (would set `Error`). -/
def evErrorB (ev : JValue) : Bool :=
  match asStr (jget ev ("type".data)) with
  | none => false
  | some t => decide (t = "error".data)

/-- Whether a raw payload is an effective Result event. -/
def isResultRaw (raw : List Char) : Bool :=
  match parseJson raw with
  | none => false
  | some ev => evResultB ev

/-- Whether a raw payload is an Error event. -/
def isErrorRaw (raw : List Char) : Bool :=
  match parseJson raw with
  | none => false
  | some ev => evErrorB ev

/-- Whether a raw payload is a terminal event. -/
def termRaw (raw : List Char) : Bool := isResultRaw raw || isErrorRaw raw

/-- Whether a parsed value is JSON `null`. -/
def isNullJ : JValue → Bool
  | .jnull => true
  | _ => false

/-- Whether a parsed value is a JSON string. -/
def isJStr : JValue → Bool
  | .jstr _ => true
  | _ => false

/-- Whether a field is absent or a string — the shapes the reducer's
TypeScript annotations promise and on which `applyEv` reproduces the runtime
exactly (`??` only defaults null/undefined, so other non-string values would
flow into state at runtime). -/
def fieldStrOrAbsent : Option JValue → Bool
  | none => true
  | some (.jstr _) => true
  | _ => false

/-- Whether `event.stage` is exactly the string `"page"` (the strict equality
`stage === "page"` after `event.stage ?? ""`). -/
def stageIsPage (ev : JValue) : Bool :=
  match jget ev ("stage".data) with
  | some (.jstr st) => st = "page".data
  | _ => false

/-- Whether `detail.replace` throws in `stageLabel`: `event.detail` is present,
truthy, and not a string (non-strings have no `replace` method). -/
def detailCrash (ev : JValue) : Bool :=
  match jget ev ("detail".data) with
  | some dv => jsTruthy dv && !(isJStr dv)
  | none => false

/-- Whether applying this parsed event throws a TypeError in the real
reducer: reading `event.type` of `null` (useAnalysis.ts line 98), or calling
`detail.replace` on a truthy non-string detail of a `page` progress event
(line 22).  Such a throw escapes the parse-only inner try and reaches the
outer catch. -/
def throwsEv (ev : JValue) : Bool :=
  isNullJ ev ||
  (match asStr (jget ev ("type".data)) with
   | some t => if t = "progress".data then stageIsPage ev && detailCrash ev else false
   | none => false)

/-- Whether applying this raw payload throws in the real reducer (a payload
that fails to parse is skipped by the inner catch and never throws). -/
def throwsRaw (raw : List Char) : Bool :=
  match parseJson raw with
  | none => false
  | some ev => throwsEv ev

/-- Whether `applyEv` reproduces the runtime exactly on this parsed event:
not the `null` payload, and the fields of the recognized branches have the
string-or-absent shapes of the spec's closed event variant.  On tame events
application never throws. -/
def tameEv (ev : JValue) : Bool :=
  !(isNullJ ev) &&
  (match asStr (jget ev ("type".data)) with
   | some t =>
     if t = "progress".data then
       fieldStrOrAbsent (jget ev ("stage".data)) &&
         fieldStrOrAbsent (jget ev ("detail".data))
     else if t = "error".data then fieldStrOrAbsent (jget ev ("message".data))
     else true
   | none => true)

/-- Whether a raw payload is tame: it fails to parse (skipped), or parses to
a tame event. -/
def tameRaw (raw : List Char) : Bool :=
  match parseJson raw with
  | none => true
  | some ev => tameEv ev

/-- SSE part handling in the reducer read loop: find the `data: ` line of the
part and take the trimmed text after the prefix (`useAnalysis.ts` lines 77-82). -/
def extractRaw (part : List Char) : Option (List Char) :=
  match (splitStr '\n' [] part).find? (fun l => isPre ("data: ".data) l) with
  | some l => some (trimCL (l.drop 6))
  | none => none

/-- One SSE part as a delivered event payload: the `[DONE]` sentinel is
consumed as end-of-stream, not delivered (`useAnalysis.ts` line 83). -/
def sseEventOfPart (part : List Char) : Option (List Char) :=
  match extractRaw part with
  | some raw => if raw = "[DONE]".data then none else some raw
  | none => none

/- ## Incremental decoding (both codec instances) -/

/-- One decode step of the accumulating-buffer codec: append the chunk to the
leftover, split on the separator `d :: ds`, keep the unterminated last segment
as the new leftover, and process each completed frame with `f` in order.
The state is (outputs emitted so far, leftover). -/
def incStep (d : Char) (ds : List Char) (f : List Char → Option (List Char))
    (st : List (List Char) × List Char) (chunk : List Char) :
    List (List Char) × List Char :=
  let parts := splitStr d ds (st.2 ++ chunk)
  (st.1 ++ parts.dropLast.filterMap f, lastD parts)

/-- The worker-output instance: newline-delimited records, each validated and
re-framed by `processLine` (the `child.stdout` data handler). -/
def gwStep : List (List Char) × List Char → List Char → List (List Char) × List Char :=
  incStep '\n' [] processLine

/-- Running the worker-output decoder over a sequence of stdout chunks. -/
def gwRun (chunks : List (List Char)) : List (List Char) × List Char :=
  chunks.foldl gwStep ([], [])

/-- The transport instance: blank-line-delimited parts, each reduced to its
delivered event payload (the reducer's SSE read loop). -/
def sseStep : List (List Char) × List Char → List Char → List (List Char) × List Char :=
  incStep '\n' ['\n'] sseEventOfPart

/-- Running the transport decoder over a sequence of body chunks. -/
def sseRun (chunks : List (List Char)) : List (List Char) × List Char :=
  chunks.foldl sseStep ([], [])

/-- The gateway's whole outbound stream for a worker run: the frames forwarded
by the data handler over the chunk sequence, then the close handler's flush of
the final leftover and the sentinel. -/
def workerOutput (chunks : List (List Char)) : List (List Char) :=
  (gwRun chunks).1 ++ closeFlush (gwRun chunks).2

/- ## Job supersession (`analyze()` re-entry) -/

/-- A client session: the current job generation (the `abortRef` slot, a fresh
`AbortController` per `analyze()` call) and the reducer state. -/
structure Sys : Type where
  cur : Nat
  st : AnalysisState

/-- `analyze()` entry (`useAnalysis.ts` lines 39-51): abort the previous
controller, install a fresh one (a new generation), and reset the state to
the fresh loading state. -/
def analyzeCall (sys : Sys) : Sys :=
  { cur := sys.cur + 1, st := loadingInit }

/-- Delivery of a batch of decoded event payloads read by the loop of job
generation `j`.  A job's fetch is bound to its own controller's signal: if the
controller is no longer current it has been aborted, the pending
`reader.read()` rejects with `AbortError`, and the catch returns without
touching state (`useAnalysis.ts` lines 125-126) — the stale branch is the
identity.  A current job applies its payloads in order. -/
def deliver (sys : Sys) (j : Nat) (evs : List (List Char)) : Sys :=
  if j = sys.cur then { sys with st := evs.foldl applyRaw sys.st } else sys

/-- The event payloads delivered under job B in an interleaved delivery trace
(`true` tags B's own chunks, `false` tags stale chunks of the superseded job). -/
def collectB : List (Bool × List (List Char)) → List (List Char)
  | [] => []
  | (true, evs) :: rest => evs ++ collectB rest
  | (false, _) :: rest => collectB rest

/-- One delivery in an interleaved trace after supersession: a chunk tagged
`true` belongs to the new job (epoch `b`), a chunk tagged `false` to the
superseded job (epoch `a`). -/
def mixStep (a b : Nat) (sy : Sys) (pr : Bool × List (List Char)) : Sys :=
  deliver sy (if pr.1 then b else a) pr.2

/- ## HTTP failure handling in `analyze()` -/

/-- The status check after `fetch` (`useAnalysis.ts` lines 61-63): a non-OK
status or missing body throws `Error("HTTP <status>")`, otherwise streaming
proceeds. -/
def httpCheck (ok hasBody : Bool) (status : Nat) : Option (List Char) :=
  if ok && hasBody then none else some ("HTTP ".data ++ (toString status).data)

/-- What the `catch` block can observe. -/
inductive CaughtErr : Type
  | jsError : List Char → List Char → CaughtErr
  | nonError : CaughtErr

/-- The `catch` handler (`useAnalysis.ts` lines 125-132): an `AbortError`
returns without mutating state; anything else transitions to `Error` with the
error's message (or `"Unknown error"`). -/
def catchHandler (s : AnalysisState) (e : CaughtErr) : AnalysisState :=
  match e with
  | .jsError name msg =>
    if name = "AbortError".data then s
    else { s with status := .error, error := some msg }
  | .nonError => { s with status := .error, error := some ("Unknown error".data) }

/-- The read loop's event application including the outer catch
(`useAnalysis.ts` lines 69-132): payloads are applied in order; a payload on
which application throws (see `throwsRaw`) ends the loop through the outer
catch, which records the TypeError — `msg` is the engine's diagnostic text —
and the remaining payloads are never applied.  On throw-free payload lists
this is exactly the fold of `applyRaw`. -/
def runLoop (msg : List Char) (s : AnalysisState) : List (List Char) → AnalysisState
  | [] => s
  | e :: rest =>
    if throwsRaw e then catchHandler s (.jsError ("TypeError".data) msg)
    else runLoop msg (applyRaw s e) rest

/- ## Concrete event payloads used by witnesses and counterexamples -/

/-- A progress event payload. -/
def progRaw : List Char := "\x7b\"type\":\"progress\",\"stage\":\"domain\"\x7d".data

/-- A per-page progress event payload carrying a detail URL. -/
def pageRaw : List Char :=
  "\x7b\"type\":\"progress\",\"stage\":\"page\",\"detail\":\"https://x.com/a\"\x7d".data

/-- A result event payload. -/
def resRaw : List Char := "\x7b\"type\":\"result\",\"data\":\x7b\"score\":80\x7d\x7d".data

/-- An error event payload. -/
def errRaw : List Char := "\x7b\"type\":\"error\",\"message\":\"boom\"\x7d".data

/-- The parsed form of `resRaw`. -/
def resEv : JValue :=
  .jobj [("type".data, .jstr ("result".data)),
         ("data".data, .jobj [("score".data, .jnum ("80".data))])]

/-- The payload carried by `resRaw`. -/
def resData : JValue := .jobj [("score".data, .jnum ("80".data))]

/-- A Loading state that already carries an error message; not reachable by
the reducer, but in the domain of the claim's universal quantifier. -/
def c2badState : AnalysisState :=
  { status := .loading, progressSteps := [], currentStage := [],
    result := none, error := some ['x'] }

/- ## Lemmas: prefix test and list utilities -/

theorem isPre_length : ∀ l s : List Char, isPre l s = true → l.length ≤ s.length := by
  intro l
  induction l with
  | nil => intro s _; simp
  | cons a as ih =>
    intro s h
    cases s with
    | nil => simp [isPre] at h
    | cons b bs =>
      simp only [isPre] at h
      by_cases hab : a = b
      · rw [if_pos hab] at h
        have := ih bs h
        simp only [List.length_cons]
        omega
      · rw [if_neg hab] at h
        exact absurd h (by simp)

theorem isPre_append_right : ∀ l s t : List Char, isPre l s = true → isPre l (s ++ t) = true := by
  intro l
  induction l with
  | nil => intro s t _; rfl
  | cons a as ih =>
    intro s t h
    cases s with
    | nil =>
      have := isPre_length _ _ h
      simp at this
    | cons b bs =>
      simp only [isPre, List.cons_append] at h ⊢
      by_cases hab : a = b
      · rw [if_pos hab] at h ⊢
        exact ih bs t h
      · rw [if_neg hab] at h
        exact absurd h (by simp)

theorem isPre_of_append : ∀ l s t : List Char,
    isPre l (s ++ t) = true → l.length ≤ s.length → isPre l s = true := by
  intro l
  induction l with
  | nil => intro s t _ _; rfl
  | cons a as ih =>
    intro s t h hlen
    cases s with
    | nil => simp at hlen
    | cons b bs =>
      simp only [isPre, List.cons_append] at h ⊢
      by_cases hab : a = b
      · rw [if_pos hab] at h ⊢
        exact ih bs t h (by simpa using hlen)
      · rw [if_neg hab] at h
        exact absurd h (by simp)

theorem ne_nil_append {α : Type} (xs ys : List α) (h : ys ≠ []) : xs ++ ys ≠ [] := by
  cases xs <;> simp_all

theorem dropLast_cons_ne {α : Type} (a : α) (l : List α) (h : l ≠ []) :
    (a :: l).dropLast = a :: l.dropLast := by
  cases l with
  | nil => exact absurd rfl h
  | cons b bs => rfl

theorem dropLast_append_ne {α : Type} :
    ∀ (xs ys : List α), ys ≠ [] → (xs ++ ys).dropLast = xs ++ ys.dropLast := by
  intro xs
  induction xs with
  | nil => intro ys _; simp
  | cons x xs ih =>
    intro ys h
    rw [List.cons_append, dropLast_cons_ne x (xs ++ ys) (ne_nil_append xs ys h), ih ys h,
      List.cons_append]

theorem lastD_cons_ne (a : List Char) (l : List (List Char)) (h : l ≠ []) :
    lastD (a :: l) = lastD l := by
  cases l with
  | nil => exact absurd rfl h
  | cons b bs => rfl

theorem lastD_append_ne :
    ∀ (xs ys : List (List Char)), ys ≠ [] → lastD (xs ++ ys) = lastD ys := by
  intro xs
  induction xs with
  | nil => intro ys _; rfl
  | cons x xs ih =>
    intro ys h
    rw [List.cons_append, lastD_cons_ne x (xs ++ ys) (ne_nil_append xs ys h), ih ys h]

theorem lastD_concat (xs : List (List Char)) (a : List Char) : lastD (xs ++ [a]) = a := by
  rw [lastD_append_ne xs [a] (by simp)]
  rfl

/- ## Lemmas: the split codec -/

theorem splitF_congr (d : Char) (ds : List Char) :
    ∀ m n s, s.length ≤ m → s.length ≤ n → splitF d ds m s = splitF d ds n s := by
  intro m
  induction m with
  | zero =>
    intro n s hm _
    have hs : s = [] := List.eq_nil_of_length_eq_zero (Nat.le_zero.mp hm)
    subst hs
    cases n <;> rfl
  | succ m ih =>
    intro n s hm hn
    cases s with
    | nil => cases n <;> rfl
    | cons c cs =>
      cases n with
      | zero => simp at hn
      | succ n' =>
        have hcs : cs.length ≤ m := by simp at hm; omega
        have hcs' : cs.length ≤ n' := by simp at hn; omega
        have hdrop : (cs.drop ds.length).length ≤ cs.length := by
          simp [List.length_drop]
        simp only [splitF]
        by_cases hp : isPre (d :: ds) (c :: cs) = true
        · rw [if_pos hp, if_pos hp]
          rw [ih n' (cs.drop ds.length) (le_trans hdrop hcs) (le_trans hdrop hcs')]
        · rw [if_neg hp, if_neg hp, ih n' cs hcs hcs']

theorem splitStr_nil (d : Char) (ds : List Char) : splitStr d ds [] = [[]] := rfl

theorem splitF_cons (d : Char) (ds : List Char) (m : Nat) (c : Char) (cs : List Char) :
    splitF d ds (m + 1) (c :: cs) =
      if isPre (d :: ds) (c :: cs) then [] :: splitF d ds m (cs.drop ds.length)
      else (c :: (splitF d ds m cs).headD []) :: (splitF d ds m cs).tail := rfl

theorem splitStr_cons_pos (d : Char) (ds : List Char) (c : Char) (cs : List Char)
    (hp : isPre (d :: ds) (c :: cs) = true) :
    splitStr d ds (c :: cs) = [] :: splitStr d ds (cs.drop ds.length) := by
  show splitF d ds (cs.length + 1) (c :: cs) = _
  rw [splitF_cons, if_pos hp]
  rw [splitF_congr d ds cs.length (cs.drop ds.length).length (cs.drop ds.length)
    (by simp [List.length_drop]) (le_refl _)]
  rfl

theorem splitStr_cons_neg (d : Char) (ds : List Char) (c : Char) (cs : List Char)
    (hp : isPre (d :: ds) (c :: cs) = false) :
    splitStr d ds (c :: cs) = (c :: (splitStr d ds cs).headD []) :: (splitStr d ds cs).tail := by
  show splitF d ds (cs.length + 1) (c :: cs) = _
  rw [splitF_cons, if_neg (by rw [hp]; simp)]
  rfl

theorem splitStr_ne_nil (d : Char) (ds : List Char) : ∀ s, splitStr d ds s ≠ [] := by
  intro s
  cases s with
  | nil => rw [splitStr_nil]; simp
  | cons c cs =>
    cases hb : isPre (d :: ds) (c :: cs) with
    | true => rw [splitStr_cons_pos d ds c cs hb]; simp
    | false => rw [splitStr_cons_neg d ds c cs hb]; simp

theorem splitStr_short (d : Char) (ds : List Char) :
    ∀ s : List Char, s.length < ds.length + 1 → splitStr d ds s = [s] := by
  intro s
  induction s with
  | nil => intro _; rfl
  | cons c cs ih =>
    intro h
    have hb : isPre (d :: ds) (c :: cs) = false := by
      cases hb2 : isPre (d :: ds) (c :: cs) with
      | false => rfl
      | true =>
        have := isPre_length _ _ hb2
        simp at this h
        omega
    rw [splitStr_cons_neg d ds c cs hb, ih (by simp at h ⊢; omega)]
    rfl

theorem splitStr_singleton (d : Char) (ds : List Char) :
    ∀ s x : List Char, splitStr d ds s = [x] → x = s := by
  intro s
  induction s with
  | nil =>
    intro x h
    rw [splitStr_nil] at h
    simpa using h.symm
  | cons c cs ih =>
    intro x h
    cases hb : isPre (d :: ds) (c :: cs) with
    | true =>
      rw [splitStr_cons_pos d ds c cs hb] at h
      have h2 : splitStr d ds (cs.drop ds.length) = [] := by
        injection h with h1 h2
      exact absurd h2 (splitStr_ne_nil d ds _)
    | false =>
      rw [splitStr_cons_neg d ds c cs hb] at h
      injection h with h1 h2
      cases hsp : splitStr d ds cs with
      | nil => exact absurd hsp (splitStr_ne_nil d ds cs)
      | cons seg rest =>
        rw [hsp] at h1 h2
        simp only [List.headD_cons, List.tail_cons] at h1 h2
        subst h2
        have hseg : seg = cs := ih seg hsp
        rw [← h1, hseg]

theorem splitStr_lastD (d : Char) (ds : List Char) :
    ∀ n s, s.length ≤ n →
      splitStr d ds (lastD (splitStr d ds s)) = [lastD (splitStr d ds s)] := by
  intro n
  induction n with
  | zero =>
    intro s h
    have hs : s = [] := List.eq_nil_of_length_eq_zero (Nat.le_zero.mp h)
    subst hs
    rfl
  | succ m ih =>
    intro s hs
    cases s with
    | nil => rfl
    | cons c cs =>
      have hcs : cs.length ≤ m := by simp at hs; omega
      cases hb : isPre (d :: ds) (c :: cs) with
      | true =>
        rw [splitStr_cons_pos d ds c cs hb]
        rw [lastD_cons_ne [] _ (splitStr_ne_nil d ds _)]
        exact ih (cs.drop ds.length) (by simp [List.length_drop]; omega)
      | false =>
        rw [splitStr_cons_neg d ds c cs hb]
        cases hsp : splitStr d ds cs with
        | nil => exact absurd hsp (splitStr_ne_nil d ds cs)
        | cons seg rest =>
          cases rest with
          | nil =>
            have hseg : seg = cs := splitStr_singleton d ds cs seg hsp
            subst hseg
            show splitStr d ds (c :: seg) = [c :: seg]
            rw [splitStr_cons_neg d ds c seg hb, hsp]
            rfl
          | cons r rs =>
            simp only [List.headD_cons, List.tail_cons]
            rw [lastD_cons_ne (c :: seg) (r :: rs) (by simp)]
            have h2 := ih cs hcs
            rw [hsp, lastD_cons_ne seg (r :: rs) (by simp)] at h2
            exact h2

theorem splitStr_append (d : Char) (ds : List Char) :
    ∀ n s, s.length ≤ n → ∀ t,
      splitStr d ds (s ++ t) =
        (splitStr d ds s).dropLast ++ splitStr d ds (lastD (splitStr d ds s) ++ t) := by
  intro n
  induction n with
  | zero =>
    intro s h t
    have hs : s = [] := List.eq_nil_of_length_eq_zero (Nat.le_zero.mp h)
    subst hs
    simp [splitStr_nil, lastD]
  | succ m ih =>
    intro s hs t
    cases s with
    | nil => simp [splitStr_nil, lastD]
    | cons c cs =>
      have hcs : cs.length ≤ m := by simp at hs; omega
      cases hb : isPre (d :: ds) (c :: cs) with
      | true =>
        have hb2 : isPre (d :: ds) ((c :: cs) ++ t) = true := isPre_append_right _ _ t hb
        have hlen : ds.length ≤ cs.length := by
          have := isPre_length _ _ hb
          simp at this
          omega
        rw [List.cons_append] at hb2 ⊢
        rw [splitStr_cons_pos d ds c (cs ++ t) hb2]
        have hdrop : (cs ++ t).drop ds.length = cs.drop ds.length ++ t := by
          rw [List.drop_append_of_le_length hlen]
        rw [hdrop]
        rw [ih (cs.drop ds.length) (by simp [List.length_drop]; omega) t]
        rw [splitStr_cons_pos d ds c cs hb]
        rw [dropLast_cons_ne [] _ (splitStr_ne_nil d ds _),
          lastD_cons_ne [] _ (splitStr_ne_nil d ds _), List.cons_append]
      | false =>
        cases hb2 : isPre (d :: ds) ((c :: cs) ++ t) with
        | true =>
          have hshort : (c :: cs).length < (d :: ds).length := by
            by_contra hge
            have : isPre (d :: ds) (c :: cs) = true :=
              isPre_of_append _ _ t hb2 (by omega)
            rw [this] at hb
            exact absurd hb (by simp)
          have hone : splitStr d ds (c :: cs) = [c :: cs] :=
            splitStr_short d ds (c :: cs) (by simpa using hshort)
          rw [hone]
          rfl
        | false =>
          rw [List.cons_append] at hb2 ⊢
          rw [splitStr_cons_neg d ds c (cs ++ t) hb2,
            splitStr_cons_neg d ds c cs hb]
          cases hsp : splitStr d ds cs with
          | nil => exact absurd hsp (splitStr_ne_nil d ds cs)
          | cons seg rest =>
            cases rest with
            | nil =>
              have hseg : seg = cs := splitStr_singleton d ds cs seg hsp
              subst hseg
              show (c :: (splitStr d ds (seg ++ t)).headD []) ::
                    (splitStr d ds (seg ++ t)).tail
                  = [] ++ splitStr d ds ((c :: seg) ++ t)
              rw [List.nil_append, List.cons_append,
                splitStr_cons_neg d ds c (seg ++ t) hb2]
            | cons r rs =>
              rw [ih cs hcs t, hsp]
              simp only [List.headD_cons, List.tail_cons]
              rw [dropLast_cons_ne seg (r :: rs) (by simp),
                dropLast_cons_ne (c :: seg) (r :: rs) (by simp),
                lastD_cons_ne seg (r :: rs) (by simp),
                lastD_cons_ne (c :: seg) (r :: rs) (by simp)]
              simp only [List.cons_append, List.headD_cons, List.tail_cons]

theorem lastD_single (x : List Char) : lastD [x] = x := rfl

theorem incStep_foldl (d : Char) (ds : List Char) (f : List Char → Option (List Char)) :
    ∀ (chunks : List (List Char)) (st : List (List Char) × List Char),
      splitStr d ds st.2 = [st.2] →
      chunks.foldl (incStep d ds f) st = incStep d ds f st chunks.flatten := by
  intro chunks
  induction chunks with
  | nil =>
    intro st hst
    show st = incStep d ds f st []
    simp only [incStep, List.append_nil, hst, List.dropLast_single, List.filterMap_nil,
      lastD_single]
  | cons ch chs ih =>
    intro st hst
    rw [List.foldl_cons]
    have hst' : splitStr d ds (incStep d ds f st ch).2 = [(incStep d ds f st ch).2] := by
      show splitStr d ds (lastD (splitStr d ds (st.2 ++ ch))) = _
      exact splitStr_lastD d ds (st.2 ++ ch).length (st.2 ++ ch) (le_refl _)
    rw [ih (incStep d ds f st ch) hst', List.flatten_cons]
    have hR : splitStr d ds ((st.2 ++ ch) ++ chs.flatten) =
        (splitStr d ds (st.2 ++ ch)).dropLast ++
          splitStr d ds (lastD (splitStr d ds (st.2 ++ ch)) ++ chs.flatten) :=
      splitStr_append d ds (st.2 ++ ch).length (st.2 ++ ch) (le_refl _) chs.flatten
    have hQ : splitStr d ds (lastD (splitStr d ds (st.2 ++ ch)) ++ chs.flatten) ≠ [] :=
      splitStr_ne_nil d ds _
    simp only [incStep]
    rw [← List.append_assoc, hR, dropLast_append_ne _ _ hQ, lastD_append_ne _ _ hQ]
    simp [List.filterMap_append, List.append_assoc]

theorem splitNl_no (d : Char) : ∀ s : List Char, d ∉ s → splitStr d [] s = [s] := by
  intro s
  induction s with
  | nil => intro _; rfl
  | cons c cs ih =>
    intro h
    have hdc : d ≠ c := fun he => h (he ▸ List.mem_cons_self c cs)
    have hb : isPre (d :: []) (c :: cs) = false := by simp [isPre, hdc]
    rw [splitStr_cons_neg d [] c cs hb, ih (fun hm => h (List.mem_cons_of_mem c hm))]
    rfl

theorem splitNl_cons (d : Char) : ∀ s tl : List Char, d ∉ s →
    splitStr d [] (s ++ d :: tl) = s :: splitStr d [] tl := by
  intro s
  induction s with
  | nil =>
    intro tl _
    have hb : isPre (d :: []) (d :: tl) = true := by simp [isPre]
    rw [List.nil_append, splitStr_cons_pos d [] d tl hb]
    rfl
  | cons c cs ih =>
    intro tl h
    have hdc : d ≠ c := fun he => h (he ▸ List.mem_cons_self c cs)
    have hb : isPre (d :: []) (c :: (cs ++ d :: tl)) = false := by simp [isPre, hdc]
    rw [List.cons_append, splitStr_cons_neg d [] c (cs ++ d :: tl) hb,
      ih tl (fun hm => h (List.mem_cons_of_mem c hm))]
    rfl

theorem splitNl_terminated (d : Char) :
    ∀ (done : List (List Char)) (tl : List Char), (∀ r ∈ done, d ∉ r) → d ∉ tl →
      splitStr d [] ((done.map (fun r => r ++ [d])).flatten ++ tl) = done ++ [tl] := by
  intro done
  induction done with
  | nil =>
    intro tl _ ht
    simpa using splitNl_no d tl ht
  | cons r done ih =>
    intro tl hall ht
    simp only [List.map_cons, List.flatten_cons, List.append_assoc, List.singleton_append,
      List.cons_append]
    rw [splitNl_cons d r _ (hall r (List.mem_cons_self r done))]
    simp only [List.nil_append]
    rw [ih tl (fun x hx => hall x (List.mem_cons_of_mem r hx)) ht]

/- ## Lemmas: the reducer's event application -/

theorem applyRaw_none (s : AnalysisState) (raw : List Char)
    (hp : parseJson raw = none) : applyRaw s raw = s := by
  unfold applyRaw
  rw [hp]

theorem applyRaw_some (s : AnalysisState) (raw : List Char) (ev : JValue)
    (hp : parseJson raw = some ev) : applyRaw s raw = applyEv s ev := by
  unfold applyRaw
  rw [hp]

theorem applyEv_noType (s : AnalysisState) (ev : JValue)
    (ha : asStr (jget ev ("type".data)) = none) : applyEv s ev = s := by
  unfold applyEv
  rw [ha]

theorem applyEv_type (s : AnalysisState) (ev : JValue) (t : List Char)
    (ha : asStr (jget ev ("type".data)) = some t) :
    applyEv s ev =
      (if t = "progress".data then progressUpdate s ev
       else if t = "result".data then resultUpdate s ev
       else if t = "error".data then errorUpdate s ev
       else s) := by
  unfold applyEv
  rw [ha]

theorem resultUpdate_noData (s : AnalysisState) (ev : JValue)
    (hd : jget ev ("data".data) = none) : resultUpdate s ev = s := by
  unfold resultUpdate
  rw [hd]

theorem resultUpdate_data (s : AnalysisState) (ev : JValue) (d : JValue)
    (hd : jget ev ("data".data) = some d) :
    resultUpdate s ev =
      (if jsTruthy d then
        { s with status := .complete, result := some d, currentStage := "Complete".data }
       else s) := by
  unfold resultUpdate
  rw [hd]

theorem evTruthyData_some (ev : JValue) (d : JValue)
    (hd : jget ev ("data".data) = some d) : evTruthyData ev = jsTruthy d := by
  unfold evTruthyData
  rw [hd]

theorem evResultB_type (ev : JValue) (t : List Char)
    (ha : asStr (jget ev ("type".data)) = some t) :
    evResultB ev = (decide (t = "result".data) && evTruthyData ev) := by
  unfold evResultB
  rw [ha]

theorem evErrorB_type (ev : JValue) (t : List Char)
    (ha : asStr (jget ev ("type".data)) = some t) :
    evErrorB ev = decide (t = "error".data) := by
  unfold evErrorB
  rw [ha]

theorem isResultRaw_some (raw : List Char) (ev : JValue)
    (hp : parseJson raw = some ev) : isResultRaw raw = evResultB ev := by
  unfold isResultRaw
  rw [hp]

theorem isErrorRaw_some (raw : List Char) (ev : JValue)
    (hp : parseJson raw = some ev) : isErrorRaw raw = evErrorB ev := by
  unfold isErrorRaw
  rw [hp]

theorem applyEv_status_of_not_term (s : AnalysisState) (ev : JValue)
    (hres : evResultB ev = false) (herr : evErrorB ev = false) :
    (applyEv s ev).status = s.status := by
  cases ha : asStr (jget ev ("type".data)) with
  | none => rw [applyEv_noType s ev ha]
  | some t =>
    rw [applyEv_type s ev t ha]
    rw [evResultB_type ev t ha] at hres
    rw [evErrorB_type ev t ha] at herr
    by_cases h1 : t = "progress".data
    · rw [if_pos h1]
      rfl
    · rw [if_neg h1]
      by_cases h2 : t = "result".data
      · rw [if_pos h2]
        have htd : evTruthyData ev = false := by
          rw [h2] at hres
          simpa using hres
        cases hd : jget ev ("data".data) with
        | none => rw [resultUpdate_noData s ev hd]
        | some d =>
          rw [resultUpdate_data s ev d hd]
          rw [evTruthyData_some ev d hd] at htd
          rw [if_neg (by rw [htd]; simp)]
      · rw [if_neg h2]
        by_cases h3 : t = "error".data
        · exfalso
          rw [h3] at herr
          simp at herr
        · rw [if_neg h3]

theorem applyRaw_status_of_not_term (s : AnalysisState) (raw : List Char)
    (h : termRaw raw = false) : (applyRaw s raw).status = s.status := by
  unfold termRaw at h
  simp only [Bool.or_eq_false_iff] at h
  obtain ⟨h1, h2⟩ := h
  cases hp : parseJson raw with
  | none => rw [applyRaw_none s raw hp]
  | some ev =>
    rw [applyRaw_some s raw ev hp]
    rw [isResultRaw_some raw ev hp] at h1
    rw [isErrorRaw_some raw ev hp] at h2
    exact applyEv_status_of_not_term s ev h1 h2

theorem applyEv_complete_source (s : AnalysisState) (ev : JValue)
    (h : (applyEv s ev).status = JobStatus.complete) :
    s.status = JobStatus.complete ∨ evResultB ev = true := by
  cases ha : asStr (jget ev ("type".data)) with
  | none =>
    rw [applyEv_noType s ev ha] at h
    exact Or.inl h
  | some t =>
    rw [applyEv_type s ev t ha] at h
    by_cases h1 : t = "progress".data
    · rw [if_pos h1] at h
      exact Or.inl h
    · rw [if_neg h1] at h
      by_cases h2 : t = "result".data
      · rw [if_pos h2] at h
        cases hd : jget ev ("data".data) with
        | none =>
          rw [resultUpdate_noData s ev hd] at h
          exact Or.inl h
        | some d =>
          rw [resultUpdate_data s ev d hd] at h
          cases htr : jsTruthy d with
          | false =>
            rw [if_neg (by rw [htr]; simp)] at h
            exact Or.inl h
          | true =>
            refine Or.inr ?_
            rw [evResultB_type ev t ha, evTruthyData_some ev d hd, h2, htr]
            simp
      · rw [if_neg h2] at h
        by_cases h3 : t = "error".data
        · rw [if_pos h3] at h
          simp [errorUpdate] at h
        · rw [if_neg h3] at h
          exact Or.inl h

theorem applyEv_error_source (s : AnalysisState) (ev : JValue)
    (h : (applyEv s ev).status = JobStatus.error) :
    s.status = JobStatus.error ∨ evErrorB ev = true := by
  cases ha : asStr (jget ev ("type".data)) with
  | none =>
    rw [applyEv_noType s ev ha] at h
    exact Or.inl h
  | some t =>
    rw [applyEv_type s ev t ha] at h
    by_cases h1 : t = "progress".data
    · rw [if_pos h1] at h
      exact Or.inl h
    · rw [if_neg h1] at h
      by_cases h2 : t = "result".data
      · rw [if_pos h2] at h
        cases hd : jget ev ("data".data) with
        | none =>
          rw [resultUpdate_noData s ev hd] at h
          exact Or.inl h
        | some d =>
          rw [resultUpdate_data s ev d hd] at h
          cases htr : jsTruthy d with
          | false =>
            rw [if_neg (by rw [htr]; simp)] at h
            exact Or.inl h
          | true =>
            rw [if_pos htr] at h
            simp at h
      · rw [if_neg h2] at h
        by_cases h3 : t = "error".data
        · refine Or.inr ?_
          rw [evErrorB_type ev t ha, h3]
          simp
        · rw [if_neg h3] at h
          exact Or.inl h

theorem applyEv_loading_error_inv (s : AnalysisState) (ev : JValue)
    (h : s.status = JobStatus.loading → s.error = none) :
    (applyEv s ev).status = JobStatus.loading → (applyEv s ev).error = none := by
  cases ha : asStr (jget ev ("type".data)) with
  | none =>
    rw [applyEv_noType s ev ha]
    exact h
  | some t =>
    rw [applyEv_type s ev t ha]
    by_cases h1 : t = "progress".data
    · rw [if_pos h1]
      exact h
    · rw [if_neg h1]
      by_cases h2 : t = "result".data
      · rw [if_pos h2]
        cases hd : jget ev ("data".data) with
        | none =>
          rw [resultUpdate_noData s ev hd]
          exact h
        | some d =>
          rw [resultUpdate_data s ev d hd]
          cases htr : jsTruthy d with
          | false =>
            rw [if_neg (by simp)]
            exact h
          | true =>
            rw [if_pos rfl]
            intro hc
            simp at hc
      · rw [if_neg h2]
        by_cases h3 : t = "error".data
        · rw [if_pos h3]
          intro hc
          simp [errorUpdate] at hc
        · rw [if_neg h3]
          exact h

theorem applyRaw_loading_error_inv (s : AnalysisState) (raw : List Char)
    (h : s.status = JobStatus.loading → s.error = none) :
    (applyRaw s raw).status = JobStatus.loading → (applyRaw s raw).error = none := by
  cases hp : parseJson raw with
  | none =>
    rw [applyRaw_none s raw hp]
    exact h
  | some ev =>
    rw [applyRaw_some s raw ev hp]
    exact applyEv_loading_error_inv s ev h

theorem applyRaw_result (s : AnalysisState) (raw : List Char) (ev dd : JValue)
    (hp : parseJson raw = some ev)
    (ht : asStr (jget ev ("type".data)) = some ("result".data))
    (hd : jget ev ("data".data) = some dd)
    (htr : jsTruthy dd = true) :
    applyRaw s raw =
      { s with status := .complete, result := some dd,
               currentStage := "Complete".data } := by
  rw [applyRaw_some s raw ev hp, applyEv_type s ev ("result".data) ht,
    if_neg (by decide), if_pos rfl, resultUpdate_data s ev dd hd, if_pos htr]

theorem foldl_status_of_not_term :
    ∀ (evs : List (List Char)) (s : AnalysisState), (∀ e ∈ evs, termRaw e = false) →
      (evs.foldl applyRaw s).status = s.status := by
  intro evs
  induction evs with
  | nil => intro s _; rfl
  | cons e es ih =>
    intro s hall
    rw [List.foldl_cons]
    rw [ih (applyRaw s e) (fun x hx => hall x (List.mem_cons_of_mem e hx))]
    exact applyRaw_status_of_not_term s e (hall e (List.mem_cons_self e es))

theorem foldl_complete_source :
    ∀ (evs : List (List Char)) (s : AnalysisState),
      (evs.foldl applyRaw s).status = JobStatus.complete →
      s.status = JobStatus.complete ∨ ∃ e ∈ evs, isResultRaw e = true := by
  intro evs
  induction evs with
  | nil => intro s h; exact Or.inl h
  | cons e es ih =>
    intro s h
    rw [List.foldl_cons] at h
    rcases ih (applyRaw s e) h with h1 | ⟨x, hx, hres⟩
    · cases hp : parseJson e with
      | none =>
        rw [applyRaw_none s e hp] at h1
        exact Or.inl h1
      | some ev =>
        rw [applyRaw_some s e ev hp] at h1
        rcases applyEv_complete_source s ev h1 with h2 | h2
        · exact Or.inl h2
        · refine Or.inr ⟨e, List.mem_cons_self e es, ?_⟩
          rw [isResultRaw_some e ev hp]
          exact h2
    · exact Or.inr ⟨x, List.mem_cons_of_mem e hx, hres⟩

theorem foldl_error_source :
    ∀ (evs : List (List Char)) (s : AnalysisState),
      (evs.foldl applyRaw s).status = JobStatus.error →
      s.status = JobStatus.error ∨ ∃ e ∈ evs, isErrorRaw e = true := by
  intro evs
  induction evs with
  | nil => intro s h; exact Or.inl h
  | cons e es ih =>
    intro s h
    rw [List.foldl_cons] at h
    rcases ih (applyRaw s e) h with h1 | ⟨x, hx, herr⟩
    · cases hp : parseJson e with
      | none =>
        rw [applyRaw_none s e hp] at h1
        exact Or.inl h1
      | some ev =>
        rw [applyRaw_some s e ev hp] at h1
        rcases applyEv_error_source s ev h1 with h2 | h2
        · exact Or.inl h2
        · refine Or.inr ⟨e, List.mem_cons_self e es, ?_⟩
          rw [isErrorRaw_some e ev hp]
          exact h2
    · exact Or.inr ⟨x, List.mem_cons_of_mem e hx, herr⟩

theorem foldl_loading_error_inv :
    ∀ (evs : List (List Char)) (s : AnalysisState),
      (s.status = JobStatus.loading → s.error = none) →
      ((evs.foldl applyRaw s).status = JobStatus.loading →
        (evs.foldl applyRaw s).error = none) := by
  intro evs
  induction evs with
  | nil => intro s h; exact h
  | cons e es ih =>
    intro s h
    rw [List.foldl_cons]
    exact ih (applyRaw s e) (applyRaw_loading_error_inv s e h)

/- ## Lemmas: job supersession deliveries -/

theorem deliver_cur (sys : Sys) (j : Nat) (evs : List (List Char)) :
    (deliver sys j evs).cur = sys.cur := by
  unfold deliver
  by_cases h : j = sys.cur
  · rw [if_pos h]
  · rw [if_neg h]

theorem deliver_stale (sys : Sys) (j : Nat) (evs : List (List Char))
    (h : j ≠ sys.cur) : deliver sys j evs = sys := by
  unfold deliver
  rw [if_neg h]

theorem deliver_current (sys : Sys) (j : Nat) (evs : List (List Char))
    (h : j = sys.cur) : deliver sys j evs = { sys with st := evs.foldl applyRaw sys.st } := by
  unfold deliver
  rw [if_pos h]

theorem mixStep_true (a b : Nat) (sy : Sys) (evs : List (List Char)) :
    mixStep a b sy (true, evs) = deliver sy b evs := rfl

theorem mixStep_false (a b : Nat) (sy : Sys) (evs : List (List Char)) :
    mixStep a b sy (false, evs) = deliver sy a evs := rfl

theorem collectB_true (evs : List (List Char)) (rest : List (Bool × List (List Char))) :
    collectB ((true, evs) :: rest) = evs ++ collectB rest := rfl

theorem collectB_false (evs : List (List Char)) (rest : List (Bool × List (List Char))) :
    collectB ((false, evs) :: rest) = collectB rest := rfl

theorem foldl_deliver_cur (j : Nat) :
    ∀ (l : List (List (List Char))) (sys : Sys),
      (l.foldl (fun sy evs => deliver sy j evs) sys).cur = sys.cur := by
  intro l
  induction l with
  | nil => intro sys; rfl
  | cons e es ih =>
    intro sys
    rw [List.foldl_cons, ih, deliver_cur]

theorem deliver_mixed (a b : Nat) (hab : a ≠ b) :
    ∀ (mixed : List (Bool × List (List Char))) (sys : Sys), sys.cur = b →
      (mixed.foldl (mixStep a b) sys).st = (collectB mixed).foldl applyRaw sys.st ∧
      (mixed.foldl (mixStep a b) sys).cur = b := by
  intro mixed
  induction mixed with
  | nil => intro sys hc; exact ⟨rfl, hc⟩
  | cons pr rest ih =>
    intro sys hc
    obtain ⟨tag, evs⟩ := pr
    cases tag with
    | true =>
      rw [List.foldl_cons, mixStep_true, deliver_current sys b evs hc.symm]
      obtain ⟨ih1, ih2⟩ := ih { sys with st := evs.foldl applyRaw sys.st } hc
      refine ⟨?_, ih2⟩
      rw [ih1, collectB_true, List.foldl_append]
    | false =>
      rw [List.foldl_cons, mixStep_false,
        deliver_stale sys a evs (by rw [hc]; exact hab), collectB_false]
      exact ih sys hc

/- ## Lemmas: throwing payloads and the read loop -/

theorem throwsRaw_none (raw : List Char) (hp : parseJson raw = none) :
    throwsRaw raw = false := by
  unfold throwsRaw
  rw [hp]

theorem throwsRaw_some (raw : List Char) (ev : JValue) (hp : parseJson raw = some ev) :
    throwsRaw raw = throwsEv ev := by
  unfold throwsRaw
  rw [hp]

theorem tameRaw_some (raw : List Char) (ev : JValue) (hp : parseJson raw = some ev) :
    tameRaw raw = tameEv ev := by
  unfold tameRaw
  rw [hp]

theorem throwsEv_noType (ev : JValue) (ha : asStr (jget ev ("type".data)) = none) :
    throwsEv ev = (isNullJ ev || false) := by
  unfold throwsEv
  rw [ha]

theorem throwsEv_type (ev : JValue) (t : List Char)
    (ha : asStr (jget ev ("type".data)) = some t) :
    throwsEv ev =
      (isNullJ ev ||
        (if t = "progress".data then stageIsPage ev && detailCrash ev else false)) := by
  unfold throwsEv
  rw [ha]

theorem tameEv_noType (ev : JValue) (ha : asStr (jget ev ("type".data)) = none) :
    tameEv ev = (!(isNullJ ev) && true) := by
  unfold tameEv
  rw [ha]

theorem tameEv_type (ev : JValue) (t : List Char)
    (ha : asStr (jget ev ("type".data)) = some t) :
    tameEv ev =
      (!(isNullJ ev) &&
        (if t = "progress".data then
          fieldStrOrAbsent (jget ev ("stage".data)) &&
            fieldStrOrAbsent (jget ev ("detail".data))
         else if t = "error".data then fieldStrOrAbsent (jget ev ("message".data))
         else true)) := by
  unfold tameEv
  rw [ha]

theorem fieldStrOrAbsent_not_crash (ev : JValue)
    (h : fieldStrOrAbsent (jget ev ("detail".data)) = true) : detailCrash ev = false := by
  cases hd : jget ev ("detail".data) with
  | none =>
    unfold detailCrash
    rw [hd]
  | some dv =>
    rw [hd] at h
    cases dv with
    | jstr s =>
      unfold detailCrash
      rw [hd]
      simp [isJStr]
    | jnull => simp [fieldStrOrAbsent] at h
    | jbool b => simp [fieldStrOrAbsent] at h
    | jnum r => simp [fieldStrOrAbsent] at h
    | jarr xs => simp [fieldStrOrAbsent] at h
    | jobj fs => simp [fieldStrOrAbsent] at h

theorem tameEv_not_throws (ev : JValue) (h : tameEv ev = true) : throwsEv ev = false := by
  have hnn : isNullJ ev = false := by
    cases hx : isNullJ ev with
    | false => rfl
    | true =>
      unfold tameEv at h
      rw [hx] at h
      simp at h
  cases ha : asStr (jget ev ("type".data)) with
  | none =>
    rw [throwsEv_noType ev ha, hnn]
    rfl
  | some t =>
    rw [throwsEv_type ev t ha, hnn, Bool.false_or]
    by_cases h1 : t = "progress".data
    · rw [if_pos h1]
      rw [tameEv_type ev t ha, hnn, if_pos h1] at h
      simp only [Bool.not_false, Bool.true_and, Bool.and_eq_true] at h
      rw [fieldStrOrAbsent_not_crash ev h.2]
      simp
    · rw [if_neg h1]

theorem tameRaw_not_throws (raw : List Char) (h : tameRaw raw = true) :
    throwsRaw raw = false := by
  cases hp : parseJson raw with
  | none => exact throwsRaw_none raw hp
  | some ev =>
    rw [throwsRaw_some raw ev hp]
    rw [tameRaw_some raw ev hp] at h
    exact tameEv_not_throws ev h

theorem runLoop_eq_foldl (msg : List Char) :
    ∀ (evs : List (List Char)) (s : AnalysisState),
      (∀ e ∈ evs, throwsRaw e = false) →
      runLoop msg s evs = evs.foldl applyRaw s := by
  intro evs
  induction evs with
  | nil => intro s _; rfl
  | cons e es ih =>
    intro s hall
    show (if throwsRaw e then catchHandler s (.jsError ("TypeError".data) msg)
          else runLoop msg (applyRaw s e) es) = _
    rw [if_neg (by rw [hall e (List.mem_cons_self e es)]; simp), List.foldl_cons]
    exact ih (applyRaw s e) (fun x hx => hall x (List.mem_cons_of_mem e hx))

theorem runLoop_throws (msg : List Char) (s : AnalysisState) (e : List Char)
    (tl : List (List Char)) (h : throwsRaw e = true) :
    runLoop msg s (e :: tl) = catchHandler s (.jsError ("TypeError".data) msg) := by
  show (if throwsRaw e then catchHandler s (.jsError ("TypeError".data) msg)
        else runLoop msg (applyRaw s e) tl) = _
  rw [if_pos h]

theorem collectB_mem :
    ∀ (mixed : List (Bool × List (List Char))) (e : List Char),
      e ∈ collectB mixed → ∃ evs, (true, evs) ∈ mixed ∧ e ∈ evs := by
  intro mixed
  induction mixed with
  | nil =>
    intro e he
    simp [collectB] at he
  | cons pr rest ih =>
    intro e he
    obtain ⟨tag, evs⟩ := pr
    cases tag with
    | true =>
      rw [collectB_true] at he
      rcases List.mem_append.mp he with h1 | h2
      · exact ⟨evs, List.mem_cons_self _ _, h1⟩
      · obtain ⟨evs2, hm, hev⟩ := ih e h2
        exact ⟨evs2, List.mem_cons_of_mem _ hm, hev⟩
    | false =>
      rw [collectB_false] at he
      obtain ⟨evs2, hm, hev⟩ := ih e he
      exact ⟨evs2, List.mem_cons_of_mem _ hm, hev⟩

/- ## Claim theorems -/

/-- C1: for every byte stream and every way of splitting it into chunks —
splits inside the terminator included — feeding the chunks one at a time
through the decode step (append to leftover, split on the terminator, process
the completed frames, keep the unterminated remainder) emits exactly the same
ordered event sequence, and leaves the same leftover, as decoding the whole
concatenated buffer in a single step.  The first conjunct is the
newline-delimited worker-output instance (the `child.stdout` handler with its
per-line JSON validation), the second the blank-line-delimited transport
instance (the reducer's SSE read loop).  Quantifying over raw chunk lists is
stronger than quantifying over serializations of well-formed frame sequences,
which are a special case. -/
theorem c1_chunk_invariance :
    ∀ chunks : List (List Char),
      gwRun chunks = gwStep ([], []) chunks.flatten ∧
      sseRun chunks = sseStep ([], []) chunks.flatten := by
  intro chunks
  exact ⟨incStep_foldl '\n' [] processLine chunks ([], []) rfl,
         incStep_foldl '\n' ['\n'] sseEventOfPart chunks ([], []) rfl⟩

/-- C2 counterexample: the claim quantifies over every AnalysisState in status
Loading, and says a Result event clears `error` to absent.  On the state that
is Loading but carries an error message, the reducer's result branch
(`{...prev, status: "complete", result: event.data}`) keeps the old `error`:
the resulting state is Complete but its error field is still present. -/
theorem c2_result_counterexample :
    (applyRaw c2badState resRaw).status = JobStatus.complete ∧
    (applyRaw c2badState resRaw).error = some ['x'] ∧
    (applyRaw c2badState resRaw).error ≠ none := by
  exact ⟨rfl, rfl, by decide⟩

/-- C2 (amended): applying a Result event (parsed payload of type `result`
with a truthy `data`) to a Loading state with `error` absent sets `result` to
the payload, transitions status to Complete, and leaves `error` unchanged —
hence absent.  The second conjunct shows the premise is not restrictive:
every state the reducer can reach that is in status Loading has `error`
absent. -/
theorem c2_result_event :
    (∀ (s : AnalysisState) (raw : List Char) (ev dd : JValue),
      parseJson raw = some ev →
      asStr (jget ev ("type".data)) = some ("result".data) →
      jget ev ("data".data) = some dd →
      jsTruthy dd = true →
      s.status = JobStatus.loading →
      s.error = none →
      applyRaw s raw =
        { s with status := .complete, result := some dd,
                 currentStage := "Complete".data } ∧
      (applyRaw s raw).error = none) ∧
    (∀ evs : List (List Char),
      (evs.foldl applyRaw loadingInit).status = JobStatus.loading →
      (evs.foldl applyRaw loadingInit).error = none) := by
  constructor
  · intro s raw ev dd hp ht hd htr _ hse
    have h1 := applyRaw_result s raw ev dd hp ht hd htr
    refine ⟨h1, ?_⟩
    rw [h1]
    exact hse
  · intro evs
    exact foldl_loading_error_inv evs loadingInit (fun _ => rfl)

/-- C2 witness: the amended theorem applied to the fresh loading state and a
concrete result payload. -/
theorem c2_result_event_witness :
    applyRaw loadingInit resRaw =
      { loadingInit with status := .complete, result := some resData,
                         currentStage := "Complete".data } ∧
    (applyRaw loadingInit resRaw).error = none ∧
    (([progRaw] : List (List Char)).foldl applyRaw loadingInit).error = none :=
  ⟨(c2_result_event.1 loadingInit resRaw resEv resData rfl rfl rfl rfl rfl rfl).1,
   (c2_result_event.1 loadingInit resRaw resEv resData rfl rfl rfl rfl rfl rfl).2,
   c2_result_event.2 [progRaw] rfl⟩

/-- C3 counterexample: the claim says that on a spawn failure the outbound
stream is exactly one Error frame followed immediately by the sentinel, for
the local-spawn realization too.  The local `child.on("error")` handler
enqueues the error frame and then closes the stream without ever writing the
sentinel: at a concrete diagnostic message the output is not the claimed
two-frame stream and contains no sentinel at all. -/
theorem c3_sentinel_counterexample :
    spawnFailureFrames ("spawn ENOENT".data) ≠
      [dataFrame (stringifyError ("spawn ENOENT".data)), sentinelFrame] ∧
    sentinelFrame ∉ spawnFailureFrames ("spawn ENOENT".data) := by
  decide

/-- C3 (amended): on a worker-start failure no Progress frame is ever written
and the stream carries exactly one Error frame, but the two realizations
differ in the trailing sentinel.  The local-spawn error handler writes the
single error frame and closes without the sentinel (first conjunct; the frame
is not the sentinel, so the stream contains no sentinel).  The remote-proxy
fetch-failure body decodes, through the client's transport decoder, to exactly
one delivered event — the error JSON — followed by the consumed sentinel and
an empty leftover; applying that single event to the fresh loading state
yields status Error with the diagnostic message and no progress steps. -/
theorem c3_failure_contract :
    (∀ msg : List Char,
      spawnFailureFrames msg = [dataFrame (stringifyError msg)] ∧
      dataFrame (stringifyError msg) ≠ sentinelFrame) ∧
    sseRun [remoteFetchFailBody] =
      ([stringifyError ("Analysis service unavailable".data)], []) ∧
    (applyRaw loadingInit (stringifyError ("Analysis service unavailable".data))).status
        = JobStatus.error ∧
    (applyRaw loadingInit (stringifyError ("Analysis service unavailable".data))).error
        = some ("Analysis service unavailable".data) ∧
    (applyRaw loadingInit
        (stringifyError ("Analysis service unavailable".data))).progressSteps = [] := by
  refine ⟨?_, rfl, rfl, rfl, rfl⟩
  intro msg
  refine ⟨rfl, ?_⟩
  intro h
  have e1 : ("data: ".data).length = 6 := rfl
  have e2 : ("\x7b\"type\":\"error\",\"message\":".data).length = 26 := rfl
  have e3 : sentinelFrame.length = 14 := rfl
  have hlen := congrArg List.length h
  simp only [dataFrame, stringifyError, List.length_append, e1, e2, e3] at hlen
  omega

/-- C3 witness: the amended per-message conjunct at a concrete message. -/
theorem c3_failure_contract_witness :
    spawnFailureFrames ("boom".data) = [dataFrame (stringifyError ("boom".data))] ∧
    dataFrame (stringifyError ("boom".data)) ≠ sentinelFrame :=
  c3_failure_contract.1 ("boom".data)

/-- C4: supersession.  Starting from any session, job A is started
(`analyzeCall`, epoch `s0.cur + 1`), applies any deliveries of its own, and is
then superseded by job B (`analyzeCall` again, epoch `s0.cur + 2`, which also
resets the state to the fresh loading state).  For any subsequent interleaving
of stale A-tagged deliveries and B's own deliveries of tame payloads — the
spec's closed event variant: no `null` payloads, string-typed fields, on which
event application is exact and never throws (`tameRaw`) — the final
AnalysisState is exactly the read loop run on B's event payloads alone over
the fresh loading state: it reflects only B's events.  A's payloads are
unrestricted: whatever they did before the supersession, including a
reducer-side crash, is erased by B's wholesale reset.  The second conjunct is
the discard guard itself, with no restriction on the payloads: a delivery
whose epoch differs from the current one leaves the session unchanged.  In
the code the epoch is realized as the `AbortController` generation in
`abortRef`: a superseded job's controller is aborted, its pending read
rejects with `AbortError`, and the catch returns without touching state. -/
theorem c4_supersession :
    ∀ (s0 : Sys) (preA : List (List (List Char)))
      (mixed : List (Bool × List (List Char))) (msg : List Char),
      (∀ pr ∈ mixed, pr.1 = true → ∀ e ∈ pr.2, tameRaw e = true) →
      ((mixed.foldl (mixStep (s0.cur + 1) (s0.cur + 2))
          (analyzeCall (preA.foldl (fun sy evs => deliver sy (s0.cur + 1) evs)
            (analyzeCall s0)))).st
        = runLoop msg loadingInit (collectB mixed)) ∧
      (∀ (sys : Sys) (j : Nat) (evs : List (List Char)), j ≠ sys.cur →
        deliver sys j evs = sys) := by
  intro s0 preA mixed msg htame
  constructor
  · have hnt : ∀ e ∈ collectB mixed, throwsRaw e = false := by
      intro e he
      obtain ⟨evs, hm, hev⟩ := collectB_mem mixed e he
      exact tameRaw_not_throws e (htame (true, evs) hm rfl e hev)
    rw [runLoop_eq_foldl msg (collectB mixed) loadingInit hnt]
    have hA : (preA.foldl (fun sy evs => deliver sy (s0.cur + 1) evs)
        (analyzeCall s0)).cur = s0.cur + 1 := by
      rw [foldl_deliver_cur]
      rfl
    have hB : (analyzeCall (preA.foldl (fun sy evs => deliver sy (s0.cur + 1) evs)
        (analyzeCall s0))).cur = s0.cur + 2 := by
      show (preA.foldl (fun sy evs => deliver sy (s0.cur + 1) evs)
        (analyzeCall s0)).cur + 1 = s0.cur + 2
      rw [hA]
    exact (deliver_mixed (s0.cur + 1) (s0.cur + 2) (by omega) mixed _ hB).1
  · intro sys j evs h
    exact deliver_stale sys j evs h

/-- C4 witness: a concrete two-job session — job A delivers one progress
chunk, is superseded, a stale A chunk arrives interleaved with B's chunks of
tame payloads, and the final state equals the read loop run on B's payloads
alone; plus a concrete stale delivery left untouched. -/
theorem c4_supersession_witness :
    ((([(false, [pageRaw]), (true, [progRaw]), (true, [resRaw])] :
          List (Bool × List (List Char))).foldl
        (mixStep ((⟨0, initialState⟩ : Sys).cur + 1) ((⟨0, initialState⟩ : Sys).cur + 2))
        (analyzeCall ([[progRaw]].foldl
          (fun sy evs => deliver sy ((⟨0, initialState⟩ : Sys).cur + 1) evs)
          (analyzeCall (⟨0, initialState⟩ : Sys))))).st
      = runLoop [] loadingInit
          (collectB [(false, [pageRaw]), (true, [progRaw]), (true, [resRaw])])) ∧
    deliver (⟨5, loadingInit⟩ : Sys) 3 [pageRaw] = (⟨5, loadingInit⟩ : Sys) :=
  ⟨(c4_supersession ⟨0, initialState⟩ [[progRaw]]
      [(false, [pageRaw]), (true, [progRaw]), (true, [resRaw])] [] (by decide)).1,
   (c4_supersession ⟨0, initialState⟩ [[progRaw]]
      [(false, [pageRaw]), (true, [progRaw]), (true, [resRaw])] [] (by decide)).2
     ⟨5, loadingInit⟩ 3 [pageRaw] (by decide)⟩

/-- C5 counterexample: the claim says that within one job, once status is
Complete it never becomes Error.  The reducer applies events unconditionally:
after a Result event (status Complete), a subsequent Error event in the same
job moves the status to Error.  The read loop also crashes Complete into
Error without any Error event: after the Result, a forwarded `null` payload
throws at `event.type` and the outer catch sets status Error. -/
theorem c5_terminal_counterexample :
    (applyRaw loadingInit resRaw).status = JobStatus.complete ∧
    (applyRaw (applyRaw loadingInit resRaw) errRaw).status = JobStatus.error ∧
    (runLoop ("boom".data) loadingInit [resRaw]).status = JobStatus.complete ∧
    (runLoop ("boom".data) loadingInit [resRaw, "null".data]).status = JobStatus.error :=
  ⟨rfl, rfl, rfl, rfl⟩

/-- C5 (amended): a job can leave a terminal status in two ways the claim
does not allow — a later terminal event overwrites the terminal status, and a
payload on which event application throws (e.g. a forwarded `null` line) is
fatal to the job: the outer catch moves it to Error with the engine's
diagnostic and the loop stops, discarding the remaining events (second
conjunct).  Exclusivity holds for sequences of tame payloads — the spec's
closed event variant, on which application never throws — carrying at most
one effective terminal event: once the read loop has brought the state to
Complete, every extension within the same sequence is still Complete (so
never Error), and likewise for Error. -/
theorem c5_terminal_stability :
    ∀ (msg : List Char) (evs rest : List (List Char)),
      (∀ e ∈ evs ++ rest, tameRaw e = true) →
      (evs ++ rest).countP termRaw ≤ 1 →
      (((runLoop msg loadingInit evs).status = JobStatus.complete →
          (runLoop msg loadingInit (evs ++ rest)).status = JobStatus.complete) ∧
       ((runLoop msg loadingInit evs).status = JobStatus.error →
          (runLoop msg loadingInit (evs ++ rest)).status = JobStatus.error)) ∧
      (∀ (s : AnalysisState) (e : List Char) (tl : List (List Char)),
        throwsRaw e = true →
        runLoop msg s (e :: tl) = { s with status := .error, error := some msg }) := by
  intro msg evs rest htame hcount
  constructor
  · have hntA : ∀ e ∈ evs, throwsRaw e = false := fun e he =>
      tameRaw_not_throws e (htame e (List.mem_append.mpr (Or.inl he)))
    have hntAll : ∀ e ∈ evs ++ rest, throwsRaw e = false := fun e he =>
      tameRaw_not_throws e (htame e he)
    rw [runLoop_eq_foldl msg evs loadingInit hntA,
      runLoop_eq_foldl msg (evs ++ rest) loadingInit hntAll]
    rw [List.foldl_append]
    rw [List.countP_append] at hcount
    have hrest : ∀ e ∈ evs, termRaw e = true → ∀ e2 ∈ rest, termRaw e2 = false := by
      intro e he hterm e2 he2
      have h1 : 0 < evs.countP termRaw := List.countP_pos_iff.mpr ⟨e, he, hterm⟩
      cases hx : termRaw e2 with
      | false => rfl
      | true =>
        have h2 : 0 < rest.countP termRaw := List.countP_pos_iff.mpr ⟨e2, he2, hx⟩
        omega
    constructor
    · intro hc
      rcases foldl_complete_source evs loadingInit hc with h | ⟨e, he, hres⟩
      · exact absurd h (by decide)
      · have hterm : termRaw e = true := by
          unfold termRaw
          rw [hres]
          simp
        rw [foldl_status_of_not_term rest _ (hrest e he hterm)]
        exact hc
    · intro hc
      rcases foldl_error_source evs loadingInit hc with h | ⟨e, he, herr⟩
      · exact absurd h (by decide)
      · have hterm : termRaw e = true := by
          unfold termRaw
          rw [herr]
          simp
        rw [foldl_status_of_not_term rest _ (hrest e he hterm)]
        exact hc
  · intro s e tl hth
    rw [runLoop_throws msg s e tl hth,
      show catchHandler s (.jsError ("TypeError".data) msg)
          = (if ("TypeError".data = "AbortError".data) then s
             else { s with status := .error, error := some msg }) from rfl,
      if_neg (by decide)]

/-- C5 witness: a tame job with a single terminal event stays Complete (and
stays Error) across a subsequent progress event; and a forwarded `null`
payload ends the job in Error through the outer catch, discarding the
rest. -/
theorem c5_terminal_stability_witness :
    (runLoop [] loadingInit ([resRaw] ++ [progRaw])).status = JobStatus.complete ∧
    (runLoop [] loadingInit ([errRaw] ++ [progRaw])).status = JobStatus.error ∧
    runLoop ("x".data) loadingInit ("null".data :: [resRaw]) =
      { loadingInit with status := .error, error := some ("x".data) } :=
  ⟨((c5_terminal_stability [] [resRaw] [progRaw] (by decide) (by decide)).1).1 rfl,
   ((c5_terminal_stability [] [errRaw] [progRaw] (by decide) (by decide)).1).2 rfl,
   (c5_terminal_stability ("x".data) [] [] (by decide) (by decide)).2
     loadingInit ("null".data) [resRaw] (by decide)⟩

/-- C6 counterexample: the claim says a request whose `url` is empty after
trimming gets a synchronous error and no stream.  The gateway's check is
JavaScript truthiness (`if (!url)`): a whitespace-only `url` is truthy, passes
validation, and a stream is opened. -/
theorem c6_validation_counterexample :
    trimCL [' '] = [] ∧
    handlePOST (JValue.jobj [("url".data, JValue.jstr [' '])]) =
      GatewayReply.streamOpened :=
  ⟨rfl, rfl⟩

/-- C6 (amended): a request body whose `url` is missing or the empty string
receives the synchronous 400 error response and opens no stream; a body whose
`url` is any string that is non-empty — in particular every url non-empty
after trimming, but also whitespace-only strings — opens a stream. -/
theorem c6_validation :
    (∀ body : JValue, jget body ("url".data) = none →
      handlePOST body = .badRequest 400 ("\x7b\"error\":\"url is required\"\x7d".data)) ∧
    (∀ body : JValue, jget body ("url".data) = some (JValue.jstr []) →
      handlePOST body = .badRequest 400 ("\x7b\"error\":\"url is required\"\x7d".data)) ∧
    (∀ s : List Char, trimCL s ≠ [] →
      handlePOST (JValue.jobj [("url".data, JValue.jstr s)]) = .streamOpened) := by
  refine ⟨?_, ?_, ?_⟩
  · intro body h
    unfold handlePOST
    rw [h]
    rfl
  · intro body h
    unfold handlePOST
    rw [h]
    rfl
  · intro s h
    have hs : s ≠ [] := by
      intro he
      subst he
      exact h rfl
    unfold handlePOST
    have hf : jsFalsyOpt (jget (JValue.jobj [("url".data, JValue.jstr s)]) ("url".data))
        = s.isEmpty := by
      show (!(!(s.isEmpty))) = s.isEmpty
      simp
    rw [if_neg (by rw [hf]; cases s with
      | nil => exact absurd rfl hs
      | cons c cs => simp)]

/-- C6 witness: a body with `url` missing is rejected; a body with a url that
is non-empty after trimming opens a stream. -/
theorem c6_validation_witness :
    handlePOST (JValue.jobj []) =
      GatewayReply.badRequest 400 ("\x7b\"error\":\"url is required\"\x7d".data) ∧
    handlePOST (JValue.jobj [("url".data, JValue.jstr [])]) =
      GatewayReply.badRequest 400 ("\x7b\"error\":\"url is required\"\x7d".data) ∧
    handlePOST (JValue.jobj [("url".data, JValue.jstr ("https://x.com".data))]) =
      GatewayReply.streamOpened :=
  ⟨c6_validation.1 (JValue.jobj []) rfl,
   c6_validation.2.1 (JValue.jobj [("url".data, JValue.jstr [])]) rfl,
   c6_validation.2.2 ("https://x.com".data) (by decide)⟩

/-- C7: a worker run whose stdout consists of newline-terminated records
followed by a final record lacking its terminator.  The close handler makes
exactly one parse attempt on the trimmed leftover: since it parses, the
leftover is forwarded as one additional frame after the terminated records'
frames and before the sentinel. -/
theorem c7_trailing_flush :
    ∀ (done : List (List Char)) (tl : List Char),
      (∀ r ∈ done, ('\n' : Char) ∉ r) → ('\n' : Char) ∉ tl →
      ((jsonParses (trimCL tl) = true →
        workerOutput [(done.map (fun r => r ++ ['\n'])).flatten ++ tl]
          = processLines done ++ [dataFrame (trimCL tl), sentinelFrame]) ∧
       (jsonParses (trimCL tl) = false →
        workerOutput [(done.map (fun r => r ++ ['\n'])).flatten ++ tl]
          = processLines done ++ [sentinelFrame])) := by
  intro done tl hall ht
  have hsplit : workerOutput [(done.map (fun r => r ++ ['\n'])).flatten ++ tl]
      = processLines done ++ closeFlush tl := by
    show (gwStep ([], []) ((done.map (fun r => r ++ ['\n'])).flatten ++ tl)).1 ++
        closeFlush (gwStep ([], []) ((done.map (fun r => r ++ ['\n'])).flatten ++ tl)).2
      = _
    unfold gwStep incStep
    simp only [List.nil_append]
    rw [splitNl_terminated '\n' done tl hall ht]
    rw [List.dropLast_concat, lastD_concat]
    unfold processLines
    simp
  constructor
  · intro hp
    have htne : trimCL tl ≠ [] := by
      intro he
      rw [he] at hp
      exact absurd hp (by decide)
    rw [hsplit]
    unfold closeFlush
    rw [if_neg htne, if_pos hp]
    simp [List.append_assoc]
  · intro hp
    rw [hsplit]
    unfold closeFlush
    by_cases htne : trimCL tl = []
    · rw [if_pos htne]
      simp
    · rw [if_neg htne, if_neg (by rw [hp]; simp)]
      simp

/-- C7 witness: after one terminated record, an unterminated but valid JSON
leftover is flushed as one extra frame before the sentinel, while a
non-parsing leftover yields only the sentinel. -/
theorem c7_trailing_flush_witness :
    workerOutput [(["\x7b\"a\":1\x7d".data].map (fun r => r ++ ['\n'])).flatten ++
        "\x7b\"b\":2\x7d".data]
      = processLines ["\x7b\"a\":1\x7d".data] ++
        [dataFrame (trimCL ("\x7b\"b\":2\x7d".data)), sentinelFrame] ∧
    workerOutput [(["\x7b\"a\":1\x7d".data].map (fun r => r ++ ['\n'])).flatten ++
        "oops".data]
      = processLines ["\x7b\"a\":1\x7d".data] ++ [sentinelFrame] :=
  ⟨(c7_trailing_flush ["\x7b\"a\":1\x7d".data] ("\x7b\"b\":2\x7d".data)
      (by decide) (by decide)).1 (by decide),
   (c7_trailing_flush ["\x7b\"a\":1\x7d".data] ("oops".data)
      (by decide) (by decide)).2 (by decide)⟩

/-- C8: fault isolation.  For any malformed line between two well-formed
lines, the gateway's per-line handling drops exactly the malformed one and
forwards the two valid frames in their original order; and on the reducer
side a malformed raw payload leaves AnalysisState entirely unchanged — it
neither terminates processing nor transitions status nor populates any
field. -/
theorem c8_fault_isolation :
    ∀ (a b c : List Char) (s : AnalysisState),
      jsonParses (trimCL a) = true →
      jsonParses (trimCL b) = false →
      jsonParses (trimCL c) = true →
      processLines [a, b, c] = [dataFrame (trimCL a), dataFrame (trimCL c)] ∧
      applyRaw s (trimCL b) = s := by
  intro a b c s ha hb hc
  have hane : trimCL a ≠ [] := by
    intro he
    rw [he] at ha
    exact absurd ha (by decide)
  have hcne : trimCL c ≠ [] := by
    intro he
    rw [he] at hc
    exact absurd hc (by decide)
  have hpa : processLine a = some (dataFrame (trimCL a)) := by
    unfold processLine
    rw [if_neg hane, if_pos ha]
  have hpb : processLine b = none := by
    unfold processLine
    by_cases hbe : trimCL b = []
    · rw [if_pos hbe]
    · rw [if_neg hbe, if_neg (by rw [hb]; simp)]
  have hpc : processLine c = some (dataFrame (trimCL c)) := by
    unfold processLine
    rw [if_neg hcne, if_pos hc]
  constructor
  · unfold processLines
    simp [List.filterMap_cons, hpa, hpb, hpc]
  · have hnp : parseJson (trimCL b) = none := by
      cases hx : parseJson (trimCL b) with
      | none => rfl
      | some v =>
        unfold jsonParses at hb
        rw [hx] at hb
        simp at hb
    exact applyRaw_none s (trimCL b) hnp

/-- C8 witness: a non-JSON line between two JSON records. -/
theorem c8_fault_isolation_witness :
    processLines ["\x7b\"a\":1\x7d".data, "oops".data, "[2]".data] =
      [dataFrame (trimCL ("\x7b\"a\":1\x7d".data)), dataFrame (trimCL ("[2]".data))] ∧
    applyRaw loadingInit (trimCL ("oops".data)) = loadingInit :=
  c8_fault_isolation ("\x7b\"a\":1\x7d".data) ("oops".data) ("[2]".data) loadingInit
    (by decide) (by decide) (by decide)

/-- C9: for any line whose trimmed text parses as JSON, the local-spawn
gateway forwards the trimmed original text byte-for-byte inside the frame —
the parsed value is discarded and nothing is re-serialized, and no event-type
or shape filtering happens at the gateway (the hypothesis is only that the
text parses, so e.g. a bare number is forwarded just like an event object).
The second conjunct locates the type filtering in the reducer: the bare
number `42`, delivered as a payload, matches no event type and leaves every
AnalysisState unchanged. -/
theorem c9_forward_verbatim :
    ∀ (line : List Char) (s : AnalysisState),
      jsonParses (trimCL line) = true →
      processLine line = some (dataFrame (trimCL line)) ∧
      applyRaw s ("42".data) = s := by
  intro line s hp
  constructor
  · have htne : trimCL line ≠ [] := by
      intro he
      rw [he] at hp
      exact absurd hp (by decide)
    unfold processLine
    rw [if_neg htne, if_pos hp]
  · rw [applyRaw_some s ("42".data) (JValue.jnum ("42".data)) rfl]
    exact applyEv_noType s (JValue.jnum ("42".data)) rfl

/-- C9 witness: the bare number `42` itself — a JSON value that is not a
Progress/Result/Error object — is still forwarded by the gateway, and is
ignored by the reducer. -/
theorem c9_forward_verbatim_witness :
    processLine (" 42 ".data) = some (dataFrame (trimCL (" 42 ".data))) ∧
    applyRaw loadingInit ("42".data) = loadingInit :=
  c9_forward_verbatim (" 42 ".data) loadingInit (by decide)

/-- C10: when the gateway's HTTP response is non-OK or has no body, the
status check throws `Error("HTTP <status>")`; at that point the state is the
fresh loading state, and the catch handler transitions it to status Error
with exactly the message `HTTP <status>`, with no progress steps appended and
`result` still absent.  When the caught failure is an abort of the in-flight
request (`AbortError`), the catch returns without mutating any state at
all. -/
theorem c10_http_failure :
    ∀ (ok hasBody : Bool) (status : Nat) (s : AnalysisState) (m : List Char),
      (ok = false ∨ hasBody = false) →
      httpCheck ok hasBody status = some ("HTTP ".data ++ (toString status).data) ∧
      (catchHandler loadingInit
          (.jsError ("Error".data) ("HTTP ".data ++ (toString status).data))).status
        = JobStatus.error ∧
      (catchHandler loadingInit
          (.jsError ("Error".data) ("HTTP ".data ++ (toString status).data))).error
        = some ("HTTP ".data ++ (toString status).data) ∧
      (catchHandler loadingInit
          (.jsError ("Error".data) ("HTTP ".data ++ (toString status).data))).progressSteps
        = [] ∧
      (catchHandler loadingInit
          (.jsError ("Error".data) ("HTTP ".data ++ (toString status).data))).result
        = none ∧
      catchHandler s (.jsError ("AbortError".data) m) = s := by
  intro ok hasBody status s m hfail
  have hc : (ok && hasBody) = false := by
    rcases hfail with h | h <;> rw [h] <;> simp
  have hred : catchHandler loadingInit
      (.jsError ("Error".data) ("HTTP ".data ++ (toString status).data))
      = (if ("Error".data = "AbortError".data) then loadingInit
         else { loadingInit with
                status := .error,
                error := some ("HTTP ".data ++ (toString status).data) }) := rfl
  have hch : catchHandler loadingInit
      (.jsError ("Error".data) ("HTTP ".data ++ (toString status).data))
      = { loadingInit with
          status := .error,
          error := some ("HTTP ".data ++ (toString status).data) } := by
    rw [hred, if_neg (by decide)]
  refine ⟨?_, ?_, ?_, ?_, ?_, ?_⟩
  · unfold httpCheck
    rw [hc]
    rfl
  · rw [hch]
  · rw [hch]
  · rw [hch]
    rfl
  · rw [hch]
    rfl
  · rw [show catchHandler s (.jsError ("AbortError".data) m)
        = (if ("AbortError".data = "AbortError".data) then s
           else { s with status := .error, error := some m }) from rfl,
      if_pos rfl]

/-- C10 witness: a 500 response without a usable body. -/
theorem c10_http_failure_witness :
    httpCheck false true 500 = some ("HTTP ".data ++ (toString 500).data) ∧
    (catchHandler loadingInit
        (.jsError ("Error".data) ("HTTP ".data ++ (toString 500).data))).status
      = JobStatus.error ∧
    (catchHandler loadingInit
        (.jsError ("Error".data) ("HTTP ".data ++ (toString 500).data))).error
      = some ("HTTP ".data ++ (toString 500).data) ∧
    (catchHandler loadingInit
        (.jsError ("Error".data) ("HTTP ".data ++ (toString 500).data))).progressSteps
      = [] ∧
    (catchHandler loadingInit
        (.jsError ("Error".data) ("HTTP ".data ++ (toString 500).data))).result
      = none ∧
    catchHandler loadingInit (.jsError ("AbortError".data) []) = loadingInit :=
  c10_http_failure false true 500 loadingInit [] (Or.inl rfl)

end AiSeo
